import Mathlib

/-!
A shallow embedding of `src/components/web/static_files/js/uservault.js`
(the `UserCryptoVault` client-side cryptographic vault) and proofs about it.

Modelling conventions:
* JavaScript strings are modelled as `List Char` (their character sequences).
* Byte buffers (`Uint8Array` / `ArrayBuffer`) are modelled as `List Nat`,
  with each entry intended to be `< 256`.
* The platform crypto primitives (`crypto.subtle`) are modelled ideally and
  symbolically: a symmetric key is a term recording how it was derived
  (PBKDF2 from a password/salt, or an ECDH shared secret), an AES-GCM
  ciphertext is an invertible byte encoding of (key, iv, plaintext), and
  decryption succeeds exactly when the same key and iv are supplied
  (perfect authenticity of the AEAD tag).
* ECDH over P-256 is modelled in the discrete-log representation: a private
  key is a scalar `d : Nat`, and the public key `d·G` is represented by the
  scalar `d` itself; the shared secret of private `a` and public `b·G` is
  `a * b`, which is symmetric in the two key pairs by commutativity.
* `TextEncoder`/`TextDecoder` (UTF-8) are modelled as a variable-length
  byte encoding of the code-point sequence together with its decoder.
* Randomness (`crypto.getRandomValues`, ephemeral key generation) is passed
  in explicitly as extra arguments (a random tape).
* Mutation of `this` is modelled by explicit state passing: a method that
  mutates the vault returns `Vault × Except VaultError α`, the first
  component being the state of `this` when the method returns or throws.
-/

/-! ## Variable-length integer byte encoding (codec infrastructure)

A self-delimiting base-128 encoding: all continuation bytes are `< 128`,
the final byte carries `128 +` the most significant digit.  Used to embed
the symbolic crypto terms into byte lists. -/

def varint (n : Nat) : List Nat :=
  if n < 128 then [n + 128] else n % 128 :: varint (n / 128)
termination_by n
decreasing_by exact Nat.div_lt_self (by omega) (by omega)

def varintDec : List Nat → Option (Nat × List Nat)
  | [] => none
  | b :: rest =>
    if 128 ≤ b then some (b - 128, rest)
    else
      match varintDec rest with
      | some (n, r) => some (n * 128 + b, r)
      | none => none

/-- A length-prefixed raw byte segment. -/
def encBytes (l : List Nat) : List Nat := varint l.length ++ l

def decBytes (bs : List Nat) : Option (List Nat × List Nat) :=
  match varintDec bs with
  | none => none
  | some (len, r) => if len ≤ r.length then some (r.take len, r.drop len) else none

/-- A length-prefixed sequence of varints, used to embed character strings. -/
def encStr (s : List Char) : List Nat :=
  varint s.length ++ (s.map (fun c => varint c.toNat)).flatten

def readVarints : Nat → List Nat → Option (List Nat × List Nat)
  | 0, bs => some ([], bs)
  | k+1, bs =>
    match varintDec bs with
    | none => none
    | some (n, r) =>
      match readVarints k r with
      | none => none
      | some (l, r2) => some (n :: l, r2)

def decStr (bs : List Nat) : Option (List Char × List Nat) :=
  match varintDec bs with
  | none => none
  | some (len, r) =>
    match readVarints len r with
    | none => none
    | some (ns, r2) => some (ns.map Char.ofNat, r2)

/-! ## TextEncoder / TextDecoder

`this.encoder.encode` (UTF-8) is modelled as a variable-length byte encoding
of the message's code points, `this.decoder.decode` as its (total) decoder. -/

def msgEnc (s : List Char) : List Nat :=
  (s.map (fun c => varint c.toNat)).flatten

def msgDecAux : Nat → List Nat → List Char
  | 0, _ => []
  | k+1, bs =>
    match varintDec bs with
    | none => []
    | some (n, r) => Char.ofNat n :: msgDecAux k r

def msgDec (bs : List Nat) : List Char := msgDecAux bs.length bs

/-! ## Symbolic platform crypto: keys and AES-GCM -/

/-- A symmetric 256-bit AES-GCM key handle, recorded symbolically by its
derivation: `crypto.subtle.deriveKey` from PBKDF2 (password, salt,
iterations, hash) or from an ECDH shared secret. -/
inductive SymKey where
  | pbkdf2 (password : List Char) (salt : List Nat) (iterations : Nat) (hash : List Char)
  | ecdh (secret : Nat)
deriving DecidableEq

def encodeKey : SymKey → List Nat
  | SymKey.pbkdf2 pw salt iters hash =>
      0 :: (encStr pw ++ encBytes salt ++ varint iters ++ encStr hash)
  | SymKey.ecdh s => 1 :: varint s

def decodeKey : List Nat → Option (SymKey × List Nat)
  | 0 :: bs =>
    match decStr bs with
    | none => none
    | some (pw, r1) =>
      match decBytes r1 with
      | none => none
      | some (salt, r2) =>
        match varintDec r2 with
        | none => none
        | some (iters, r3) =>
          match decStr r3 with
          | none => none
          | some (hash, r4) => some (SymKey.pbkdf2 pw salt iters hash, r4)
  | 1 :: bs =>
    match varintDec bs with
    | none => none
    | some (s, r) => some (SymKey.ecdh s, r)
  | _ => none

/-- `crypto.subtle.encrypt({name: "AES-GCM", iv}, key, pt)`, modelled
ideally: the ciphertext is an invertible encoding of (key, iv, plaintext). -/
def aesGcmEncrypt (key : SymKey) (iv : List Nat) (pt : List Nat) : List Nat :=
  encodeKey key ++ encBytes iv ++ pt

/-- `crypto.subtle.decrypt({name: "AES-GCM", iv}, key, ct)`, modelled
ideally: succeeds (with the original plaintext) exactly when the supplied
key and iv are the ones the ciphertext was produced with — the AEAD
authentication tag check is perfect. -/
def aesGcmDecrypt (key : SymKey) (iv : List Nat) (ct : List Nat) : Option (List Nat) :=
  match decodeKey ct with
  | none => none
  | some (k, r) =>
    match decBytes r with
    | none => none
    | some (i, pt) => if k = key ∧ i = iv then some pt else none

/-! ## Crypto constants (`CRYPTO_CONSTANTS` in the source) -/

def KDF_ITERATIONS : Nat := 100000

def KDF_HASH : List Char := ("SHA-256").data

def SALT_LENGTH : Nat := 16

def IV_LENGTH : Nat := 12

def EPHEMERAL_KEY_LENGTH : Nat := 65

def PEM_LINE_LENGTH : Nat := 64

/-- Width in bytes of the coordinate part of an uncompressed P-256 point
(the 65-byte raw point is `0x04` followed by 64 coordinate bytes). -/
def EC_POINT_BYTES : Nat := 64

/-! ## EC points and key serialization formats -/

/-- Little-endian fixed-width base-256 digits of `n`. -/
def leBytes : Nat → Nat → List Nat
  | 0, _ => []
  | w+1, n => n % 256 :: leBytes w (n / 256)

def leVal : List Nat → Nat
  | [] => 0
  | b :: bs => b + 256 * leVal bs

/-- `crypto.subtle.exportKey("raw", pub)` for a P-256 public key with scalar
`q`: the 65-byte uncompressed point, modelled as the tag byte 4 followed by
a 64-byte encoding of the scalar. -/
def ecRawPoint (q : Nat) : List Nat := 4 :: leBytes EC_POINT_BYTES q

/-- `crypto.subtle.importKey("raw", …, ECDH P-256)`: accepts exactly a
65-byte buffer starting with the uncompressed-point tag byte 4. -/
def importRawPoint (bs : List Nat) : Option Nat :=
  match bs with
  | 4 :: rest => if rest.length = EC_POINT_BYTES then some (leVal rest) else none
  | _ => none

/-- The fixed DER header of a P-256 SPKI structure, modelled as a constant
byte marker. -/
def spkiHeader : List Nat := [48, 89, 48, 19]

/-- `crypto.subtle.exportKey("spki", pub)`: DER header followed by the
uncompressed point. -/
def spkiBytes (q : Nat) : List Nat := spkiHeader ++ ecRawPoint q

/-- `crypto.subtle.importKey("spki", …, ECDH P-256)`. -/
def importSpki (bs : List Nat) : Option Nat :=
  if bs.take 4 = spkiHeader then importRawPoint (bs.drop 4) else none

/-- The fixed DER header of a P-256 PKCS8 structure, modelled as a constant
byte marker. -/
def pkcs8Header : List Nat := [48, 129, 135, 2, 1, 0]

/-- `crypto.subtle.exportKey("pkcs8", priv)` for scalar `d`. -/
def pkcs8Bytes (d : Nat) : List Nat := pkcs8Header ++ varint d

/-- `crypto.subtle.importKey("pkcs8", …, ECDH P-256)`. -/
def importPkcs8 (bs : List Nat) : Option Nat :=
  if bs.take 6 = pkcs8Header then
    match varintDec (bs.drop 6) with
    | some (d, []) => some d
    | _ => none
  else none

/-! ## Base64 (`btoa` / `atob`)

`Base64Utils.arrayBufferToBase64` is `btoa(String.fromCharCode(...bytes))`
and `base64ToUint8Array` is `Uint8Array.from(atob(b64), c => c.charCodeAt(0))`;
the character-code round trips are identities, so both are modelled directly
on byte lists.  `atob` implements the platform's forgiving-base64 decode:
invalid characters, a length `% 4 = 1`, or misplaced padding throw
(modelled as `none`); omitted final padding is tolerated and leftover bits
are discarded. -/

def b64Alpha : List Char :=
  ("ABCDEFGHIJKLMNOPQRSTUVWXYZabcdefghijklmnopqrstuvwxyz0123456789+/").data

def sextetChar (n : Nat) : Char := b64Alpha.getD n 'A'

def sextetOf (c : Char) : Option Nat := b64Alpha.indexOf? c

def btoaChunks : List Nat → List Char
  | [] => []
  | [b1] => [sextetChar (b1 / 4), sextetChar (b1 % 4 * 16), '=', '=']
  | [b1, b2] =>
      [sextetChar (b1 / 4), sextetChar (b1 % 4 * 16 + b2 / 16),
       sextetChar (b2 % 16 * 4), '=']
  | b1 :: b2 :: b3 :: rest =>
      sextetChar (b1 / 4) :: sextetChar (b1 % 4 * 16 + b2 / 16) ::
      sextetChar (b2 % 16 * 4 + b3 / 64) :: sextetChar (b3 % 64) ::
      btoaChunks rest

def btoaChars (bs : List Nat) : List Char := btoaChunks bs

def atobChunks : List Char → Option (List Nat)
  | [] => some []
  | [_] => none
  | [c1, c2] =>
    match sextetOf c1, sextetOf c2 with
    | some s1, some s2 => some [s1 * 4 + s2 / 16]
    | _, _ => none
  | [c1, c2, c3] =>
    match sextetOf c1, sextetOf c2, sextetOf c3 with
    | some s1, some s2, some s3 => some [s1 * 4 + s2 / 16, s2 % 16 * 16 + s3 / 4]
    | _, _, _ => none
  | c1 :: c2 :: c3 :: c4 :: rest =>
    match sextetOf c1, sextetOf c2 with
    | some s1, some s2 =>
      if c3 = '=' then
        if c4 = '=' ∧ rest = [] then some [s1 * 4 + s2 / 16] else none
      else
        match sextetOf c3 with
        | none => none
        | some s3 =>
          if c4 = '=' then
            if rest = [] then some [s1 * 4 + s2 / 16, s2 % 16 * 16 + s3 / 4] else none
          else
            match sextetOf c4 with
            | none => none
            | some s4 =>
              match atobChunks rest with
              | none => none
              | some bs =>
                some ([s1 * 4 + s2 / 16, s2 % 16 * 16 + s3 / 4, s3 % 4 * 64 + s4] ++ bs)
    | _, _ => none

def atobChars (s : List Char) : Option (List Nat) := atobChunks s

/-! ## PEM formatting (`Base64Utils.formatPEM` / `Base64Utils.stripPEM`) -/

def chunk64Aux : Nat → List Char → List (List Char)
  | 0, _ => []
  | _+1, [] => []
  | k+1, c :: rest =>
      (c :: rest).take PEM_LINE_LENGTH :: chunk64Aux k ((c :: rest).drop PEM_LINE_LENGTH)

/-- `base64.match(/.{1,64}/g)`: the successive lines of at most 64
characters.  (On the empty string the JS `match` returns `null` and
`formatPEM` would throw; the vault never formats an empty body.) -/
def chunk64 (l : List Char) : List (List Char) := chunk64Aux l.length l

/-- `Array.prototype.join("\n")`. -/
def joinLines : List (List Char) → List Char
  | [] => []
  | [l] => l
  | l :: ls => l ++ '\n' :: joinLines ls

def formatPEM (b64 : List Char) (ty : List Char) : List Char :=
  (("-----BEGIN ").data) ++ ty ++ (("-----").data) ++ ['\n'] ++
  joinLines (chunk64 b64) ++ ['\n'] ++
  (("-----END ").data) ++ ty ++ (("-----").data)

/-- Whether the input starts with a run of five dashes. -/
def dash5 (l : List Char) : Bool := l.take 5 == ['-', '-', '-', '-', '-']

/-- After an opening run of five dashes was consumed: skip up to and
including the next run of five dashes. -/
def skipArmor : List Char → List Char
  | [] => []
  | c :: rest => if dash5 (c :: rest) then rest.drop 4 else skipArmor rest

def stripScanAux : Nat → List Char → List Char
  | 0, _ => []
  | k+1, l =>
    match l with
    | [] => []
    | c :: rest =>
      if dash5 (c :: rest) then stripScanAux k (skipArmor (rest.drop 4))
      else if c = '\n' then stripScanAux k rest
      else c :: stripScanAux k rest

/-- `pem.replace` of the regex "-----.*?-----|\n" by "": removes the newlines and the
dash-delimited armor segments, modelled for inputs whose dash runs form
complete armor segments (as produced by `formatPEM`; base64 bodies contain
no dashes). -/
def stripPEM (pem : List Char) : List Char := stripScanAux pem.length pem

/-! ## The vault -/

structure KeyPair where
  privateKey : Nat
  publicKey : Nat
deriving DecidableEq

/-- The mutable fields of a `UserCryptoVault` instance (`this.keyPair`,
`this.salt`, `this.iv`, `this.wrappedPrivateKey`; `null` is `none`).
`crypto.subtle.generateKey` always populates both halves of a key pair, so
`keyPair` is either `null` or a full pair. -/
structure Vault where
  keyPair : Option KeyPair
  salt : Option (List Nat)
  iv : Option (List Nat)
  wrappedPrivateKey : Option (List Nat)
deriving DecidableEq

/-- `new UserCryptoVault()`. -/
def vaultInit : Vault := ⟨none, none, none, none⟩

/-- The error outcomes of the vault's methods.  The source throws plain
`Error`s with free-text messages plus the platform's own exceptions; each
constructor notes which throw site it models. -/
inductive VaultError where
  /-- A JS `TypeError` from reading a property of `null`
  (e.g. `this.keyPair.publicKey` while `keyPair` is `null`). -/
  | typeError
  /-- `_ensureUnlocked`: `` throw new Error(`${message}: vault is locked`) ``. -/
  | vaultLocked (message : List Char)
  /-- `unlockPrivateKey`: "Failed to unlock vault: invalid password or
  corrupted data" (AEAD tag mismatch during unwrap). -/
  | unlockFailed
  /-- `decryptData`: "Failed to decrypt data: invalid data or wrong vault"
  (AEAD tag mismatch during hybrid decrypt). -/
  | decryptionFailed
  /-- The platform `InvalidCharacterError` thrown by `atob` on malformed
  base64 (the spec's `FormatError`). -/
  | formatError
  /-- A platform error thrown by `crypto.subtle.importKey` on malformed
  key material. -/
  | importKeyError
deriving DecidableEq

instance {ε α : Type} [DecidableEq ε] [DecidableEq α] : DecidableEq (Except ε α) :=
  fun a b =>
    match a, b with
    | Except.ok x, Except.ok y =>
      if h : x = y then isTrue (by rw [h]) else isFalse (by intro hc; cases hc; exact h rfl)
    | Except.error x, Except.error y =>
      if h : x = y then isTrue (by rw [h]) else isFalse (by intro hc; cases hc; exact h rfl)
    | Except.ok _, Except.error _ => isFalse (by intro hc; cases hc)
    | Except.error _, Except.ok _ => isFalse (by intro hc; cases hc)

/-- The error `_ensureUnlocked(message)` throws. -/
def ensureUnlockedErr (message : List Char) : VaultError :=
  VaultError.vaultLocked (message ++ (": vault is locked").data)

/-- `isUnlocked()`: `!!this.keyPair?.privateKey`. -/
def isUnlocked (v : Vault) : Bool := v.keyPair.isSome

/-- `lock()`: nulls `keyPair`, `salt`, `iv` and `wrappedPrivateKey`. -/
def lock (_v : Vault) : Vault :=
  { keyPair := none, salt := none, iv := none, wrappedPrivateKey := none }

/-- `generateKeyPair()` with the fresh random scalar `d` as the random
tape: a matching pair (the public key is `d·G`, represented by `d`). -/
def generateKeyPair (v : Vault) (d : Nat) : Vault :=
  { v with keyPair := some ⟨d, d⟩ }

/-- `_deriveKeyFromPassword(password, salt, operation)`: PBKDF2 with
100000 iterations of SHA-256, yielding a 256-bit AES-GCM key. -/
def deriveKeyFromPassword (password : List Char) (salt : List Nat) : SymKey :=
  SymKey.pbkdf2 password salt KDF_ITERATIONS KDF_HASH

/-- `exportPublicKeyPEM()`: reads `this.keyPair.publicKey` (a `TypeError`
if `keyPair` is `null`), exports SPKI, base64s it and PEM-armors it. -/
def exportPublicKeyPEM (v : Vault) : Except VaultError (List Char) :=
  match v.keyPair with
  | none => Except.error VaultError.typeError
  | some kp =>
      Except.ok (formatPEM (btoaChars (spkiBytes kp.publicKey)) (("PUBLIC KEY").data))

/-- `exportPrivateKeyPEM()`: `_ensureUnlocked("Cannot export private key")`,
then exports PKCS8, base64s it and PEM-armors it. -/
def exportPrivateKeyPEM (v : Vault) : Except VaultError (List Char) :=
  match v.keyPair with
  | none => Except.error (ensureUnlockedErr (("Cannot export private key").data))
  | some kp =>
      Except.ok (formatPEM (btoaChars (pkcs8Bytes kp.privateKey)) (("PRIVATE KEY").data))

/-- `wrapPrivateKeyWithPassword(password)` with the fresh random salt and
iv as the random tape.  Sets `this.salt` and `this.iv` first, then derives
the KEK, exports the private key (a `TypeError` if `keyPair` is `null`) and
AEAD-encrypts it into `this.wrappedPrivateKey`. -/
def wrapPrivateKeyWithPassword (v : Vault) (password : List Char)
    (saltR ivR : List Nat) : Vault × Except VaultError Unit :=
  let v1 := { v with salt := some saltR, iv := some ivR }
  match v1.keyPair with
  | none => (v1, Except.error VaultError.typeError)
  | some kp =>
    let kek := deriveKeyFromPassword password saltR
    let privateKeyRaw := pkcs8Bytes kp.privateKey
    ({ v1 with wrappedPrivateKey := some (aesGcmEncrypt kek ivR privateKeyRaw) },
     Except.ok ())

/-- `_importPublicKeyFromPEM(publicKeyPem)`: strip armor/newlines, base64
decode, import as SPKI. -/
def importPublicKeyFromPEM (publicKeyPem : List Char) : Except VaultError Nat :=
  match atobChars (stripPEM publicKeyPem) with
  | none => Except.error VaultError.formatError
  | some spkiB =>
    match importSpki spkiB with
    | none => Except.error VaultError.importKeyError
    | some q => Except.ok q

/-- `unlockPrivateKey(wrappedPrivateKey, salt, iv, password, publicKeyPem)`:
derive the KEK, AEAD-decrypt (an AEAD tag mismatch is caught and rethrown
as the unlock failure), import the PKCS8 private key and the PEM public
key, and only then assign `this.keyPair`. -/
def unlockPrivateKey (v : Vault) (wrappedPrivateKey : List Nat)
    (salt iv : List Nat) (password : List Char) (publicKeyPem : List Char) :
    Vault × Except VaultError Unit :=
  let kek := deriveKeyFromPassword password salt
  match aesGcmDecrypt kek iv wrappedPrivateKey with
  | none => (v, Except.error VaultError.unlockFailed)
  | some rawPrivateKey =>
    match importPkcs8 rawPrivateKey with
    | none => (v, Except.error VaultError.importKeyError)
    | some privateKey =>
      match importPublicKeyFromPEM publicKeyPem with
      | Except.error e => (v, Except.error e)
      | Except.ok publicKey =>
        ({ v with keyPair := some ⟨privateKey, publicKey⟩ }, Except.ok ())

/-- `encryptData(message)` with the fresh ephemeral private scalar `e` and
the fresh random iv as the random tape: `_ensureUnlocked`, ECDH of the
ephemeral private key with the vault's public key, AEAD-encrypt the encoded
message, and emit `"uv:" + base64(ephemeralPoint ‖ iv ‖ ciphertext)`. -/
def encryptData (v : Vault) (e : Nat) (ivR : List Nat) (message : List Char) :
    Except VaultError (List Char) :=
  match v.keyPair with
  | none => Except.error (ensureUnlockedErr (("Cannot encrypt data").data))
  | some kp =>
    let sharedKey := SymKey.ecdh (e * kp.publicKey)
    let ciphertext := aesGcmEncrypt sharedKey ivR (msgEnc message)
    let ephemeralRaw := ecRawPoint e
    let combined := ephemeralRaw ++ ivR ++ ciphertext
    Except.ok ((("uv:").data) ++ btoaChars combined)

/-- `blobBase64.replace(/^uv:/, "")`: the prefix is stripped when present
and the input is left unchanged otherwise. -/
def stripUv (s : List Char) : List Char :=
  if s.take 3 = ("uv:").data then s.drop 3 else s

/-- `decryptData(blobBase64)`: `_ensureUnlocked`, strip the optional `uv:`
prefix, base64-decode, slice at the fixed offsets 65 and 65+12, import the
ephemeral point, recompute the ECDH shared key with the vault's private
key, AEAD-decrypt (a tag mismatch is caught and rethrown as the decryption
failure) and decode the plaintext. -/
def decryptData (v : Vault) (blobBase64 : List Char) : Except VaultError (List Char) :=
  match v.keyPair with
  | none => Except.error (ensureUnlockedErr (("Cannot decrypt data").data))
  | some kp =>
    match atobChars (stripUv blobBase64) with
    | none => Except.error VaultError.formatError
    | some combined =>
      let ephemeralRaw := combined.take EPHEMERAL_KEY_LENGTH
      let iv := (combined.drop EPHEMERAL_KEY_LENGTH).take IV_LENGTH
      let ciphertext := combined.drop (EPHEMERAL_KEY_LENGTH + IV_LENGTH)
      match importRawPoint ephemeralRaw with
      | none => Except.error VaultError.importKeyError
      | some ephemeralPubKey =>
        let sharedKey := SymKey.ecdh (kp.privateKey * ephemeralPubKey)
        match aesGcmDecrypt sharedKey iv ciphertext with
        | none => Except.error VaultError.decryptionFailed
        | some plaintext => Except.ok (msgDec plaintext)

/-- `changePassword(oldPassword, newPassword, wrappedPrivateKey, salt, iv,
publicKeyPem)` with the wrap step's fresh salt and iv as the random tape:
`unlockPrivateKey` with the old password, then
`wrapPrivateKeyWithPassword` with the new one. -/
def changePassword (v : Vault) (oldPassword newPassword : List Char)
    (wrappedPrivateKey salt iv : List Nat) (publicKeyPem : List Char)
    (saltR ivR : List Nat) : Vault × Except VaultError Unit :=
  match unlockPrivateKey v wrappedPrivateKey salt iv oldPassword publicKeyPem with
  | (v1, Except.error e) => (v1, Except.error e)
  | (v1, Except.ok ()) => wrapPrivateKeyWithPassword v1 newPassword saltR ivR

/-! ## Properties of the codec and primitive layers -/

theorem varintDec_varint (n : Nat) (r : List Nat) :
    varintDec (varint n ++ r) = some (n, r) := by
  induction n using varint.induct generalizing r with
  | case1 n h =>
    rw [varint, if_pos h]
    simp [varintDec]
  | case2 n h ih =>
    rw [varint, if_neg h]
    have h1 : ¬ 128 ≤ n % 128 := by omega
    simp only [List.cons_append, varintDec, if_neg h1, List.append_eq, ih]
    have h2 : n / 128 * 128 + n % 128 = n := by omega
    rw [h2]

theorem varint_lt (n : Nat) : ∀ b ∈ varint n, b < 256 := by
  induction n using varint.induct with
  | case1 n h => rw [varint, if_pos h]; simp; omega
  | case2 n h ih => rw [varint, if_neg h]; simp; exact ⟨by omega, ih⟩

theorem varint_length_pos (n : Nat) : 0 < (varint n).length := by
  rw [varint]; split <;> simp

theorem decBytes_encBytes (l r : List Nat) :
    decBytes (encBytes l ++ r) = some (l, r) := by
  rw [encBytes, List.append_assoc, decBytes, varintDec_varint]
  simp [List.take_left', List.drop_left']

theorem readVarints_enc (l : List Nat) (r : List Nat) :
    readVarints l.length ((l.map varint).flatten ++ r) = some (l, r) := by
  induction l with
  | nil => simp [readVarints]
  | cons n l ih =>
    simp only [List.length_cons, List.map_cons, List.flatten_cons, List.append_assoc,
      readVarints, varintDec_varint, ih]

theorem decStr_encStr (s : List Char) (r : List Nat) :
    decStr (encStr s ++ r) = some (s, r) := by
  rw [encStr, List.append_assoc, decStr, varintDec_varint]
  have hl : ((s.map Char.toNat).map varint).flatten ++ r =
      (s.map (fun c => varint c.toNat)).flatten ++ r := by
    simp [List.map_map]; rfl
  have := readVarints_enc (s.map Char.toNat) r
  rw [hl] at this
  simp only [List.length_map] at this
  simp only [this]
  have hid : Char.ofNat ∘ Char.toNat = id := funext (fun c => Char.ofNat_toNat c)
  simp [List.map_map, hid]

theorem msgEnc_length_ge (s : List Char) : s.length ≤ (msgEnc s).length := by
  induction s with
  | nil => simp [msgEnc]
  | cons c s ih =>
    simp only [msgEnc, List.map_cons, List.flatten_cons, List.length_append, List.length_cons]
    have := varint_length_pos c.toNat
    simp only [msgEnc] at ih
    omega

theorem msgDecAux_msgEnc (s : List Char) :
    ∀ fuel, s.length ≤ fuel → msgDecAux fuel (msgEnc s) = s := by
  induction s with
  | nil =>
    intro fuel _
    cases fuel with
    | zero => rfl
    | succ k => simp [msgEnc, msgDecAux, varintDec]
  | cons c s ih =>
    intro fuel hf
    cases fuel with
    | zero => simp at hf
    | succ k =>
      simp only [msgEnc, List.map_cons, List.flatten_cons, List.append_assoc]
      simp only [msgDecAux, varintDec_varint, Char.ofNat_toNat]
      have : msgDecAux k (msgEnc s) = s := by
        apply ih
        simp at hf
        omega
      simp only [msgEnc] at this
      rw [this]

theorem msgDec_msgEnc (s : List Char) : msgDec (msgEnc s) = s :=
  msgDecAux_msgEnc s (msgEnc s).length (msgEnc_length_ge s)

theorem decodeKey_encodeKey (k : SymKey) (r : List Nat) :
    decodeKey (encodeKey k ++ r) = some (k, r) := by
  cases k with
  | pbkdf2 pw salt iters hash =>
    simp only [encodeKey, List.cons_append, List.append_assoc, decodeKey,
      decStr_encStr, decBytes_encBytes, varintDec_varint]
  | ecdh s =>
    simp only [encodeKey, List.cons_append, decodeKey, varintDec_varint]

theorem aesGcmDecrypt_encrypt (k : SymKey) (iv pt : List Nat) :
    aesGcmDecrypt k iv (aesGcmEncrypt k iv pt) = some pt := by
  simp only [aesGcmEncrypt, aesGcmDecrypt, List.append_assoc, decodeKey_encodeKey,
    decBytes_encBytes]
  simp

theorem aesGcmDecrypt_other (k k2 : SymKey) (iv iv2 pt : List Nat)
    (h : ¬(k = k2 ∧ iv = iv2)) :
    aesGcmDecrypt k2 iv2 (aesGcmEncrypt k iv pt) = none := by
  simp only [aesGcmEncrypt, aesGcmDecrypt, List.append_assoc, decodeKey_encodeKey,
    decBytes_encBytes]
  simp [h]

theorem length_leBytes (w n : Nat) : (leBytes w n).length = w := by
  induction w generalizing n with
  | zero => rfl
  | succ k ih => simp [leBytes, ih]

theorem leBytes_lt (w n : Nat) : ∀ b ∈ leBytes w n, b < 256 := by
  induction w generalizing n with
  | zero => simp [leBytes]
  | succ k ih =>
    simp only [leBytes, List.mem_cons]
    intro b hb
    cases hb with
    | inl h => omega
    | inr h => exact ih (n / 256) b h

theorem leVal_leBytes (w n : Nat) : leVal (leBytes w n) = n % 256 ^ w := by
  induction w generalizing n with
  | zero => simp [leBytes, leVal, Nat.mod_one]
  | succ k ih =>
    simp only [leBytes, leVal, ih]
    rw [pow_succ, Nat.mul_comm (256 ^ k) 256, Nat.mod_mul]

theorem length_ecRawPoint (q : Nat) : (ecRawPoint q).length = EPHEMERAL_KEY_LENGTH := by
  simp [ecRawPoint, length_leBytes, EC_POINT_BYTES, EPHEMERAL_KEY_LENGTH]

theorem importRawPoint_ecRawPoint (q : Nat) (h : q < 256 ^ EC_POINT_BYTES) :
    importRawPoint (ecRawPoint q) = some q := by
  simp [importRawPoint, ecRawPoint, length_leBytes, leVal_leBytes, Nat.mod_eq_of_lt h]

theorem importSpki_spkiBytes (q : Nat) (h : q < 256 ^ EC_POINT_BYTES) :
    importSpki (spkiBytes q) = some q := by
  rw [spkiBytes, importSpki, List.take_left' (by rfl), if_pos rfl,
    List.drop_left' (by rfl), importRawPoint_ecRawPoint q h]

theorem importPkcs8_pkcs8Bytes (d : Nat) :
    importPkcs8 (pkcs8Bytes d) = some d := by
  rw [pkcs8Bytes, importPkcs8, List.take_left' (by rfl), if_pos rfl,
    List.drop_left' (by rfl)]
  have := varintDec_varint d []
  simp only [List.append_nil] at this
  rw [this]

theorem spkiBytes_lt (q : Nat) : ∀ b ∈ spkiBytes q, b < 256 := by
  simp only [spkiBytes, spkiHeader, ecRawPoint, List.mem_append, List.mem_cons]
  intro b hb
  rcases hb with h | h | h
  · simp at h; omega
  · omega
  · exact leBytes_lt _ _ b h

theorem pkcs8Bytes_lt (d : Nat) : ∀ b ∈ pkcs8Bytes d, b < 256 := by
  simp only [pkcs8Bytes, pkcs8Header, List.mem_append]
  intro b hb
  rcases hb with h | h
  · simp at h; omega
  · exact varint_lt _ b h

theorem sextetOf_sextetChar : ∀ n, n < 64 → sextetOf (sextetChar n) = some n := by
  decide

theorem sextetChar_ne_eq : ∀ n, n < 64 → sextetChar n ≠ '=' := by
  decide

theorem sextetChar_mem (n : Nat) : sextetChar n ∈ b64Alpha := by
  rw [sextetChar]
  by_cases h : n < b64Alpha.length
  · rw [List.getD_eq_getElem _ _ h]
    exact List.getElem_mem h
  · rw [List.getD_eq_default _ _ (by omega)]
    decide

theorem btoaChunks_mem (bs : List Nat) :
    ∀ c ∈ btoaChunks bs, c ∈ b64Alpha ∨ c = '=' := by
  induction bs using btoaChunks.induct with
  | case1 => simp [btoaChunks]
  | case2 b1 =>
    simp only [btoaChunks, List.mem_cons]
    intro c hc
    rcases hc with h | h | h | h
    · exact Or.inl (h ▸ sextetChar_mem _)
    · exact Or.inl (h ▸ sextetChar_mem _)
    · exact Or.inr h
    · simp at h; exact Or.inr h
  | case3 b1 b2 =>
    simp only [btoaChunks, List.mem_cons]
    intro c hc
    rcases hc with h | h | h | h | h
    · exact Or.inl (h ▸ sextetChar_mem _)
    · exact Or.inl (h ▸ sextetChar_mem _)
    · exact Or.inl (h ▸ sextetChar_mem _)
    · exact Or.inr h
    · simp at h
  | case4 b1 b2 b3 rest ih =>
    simp only [btoaChunks, List.mem_cons]
    intro c hc
    rcases hc with h | h | h | h | h
    · exact Or.inl (h ▸ sextetChar_mem _)
    · exact Or.inl (h ▸ sextetChar_mem _)
    · exact Or.inl (h ▸ sextetChar_mem _)
    · exact Or.inl (h ▸ sextetChar_mem _)
    · exact ih c h

theorem atobChunks_btoaChunks (bs : List Nat) (hb : ∀ b ∈ bs, b < 256) :
    atobChunks (btoaChunks bs) = some bs := by
  induction bs using btoaChunks.induct with
  | case1 => rfl
  | case2 b1 =>
    have h1 : b1 < 256 := hb b1 (by simp)
    rw [btoaChunks]
    rw [show atobChunks [sextetChar (b1 / 4), sextetChar (b1 % 4 * 16), '=', '='] =
      match sextetOf (sextetChar (b1 / 4)), sextetOf (sextetChar (b1 % 4 * 16)) with
      | some s1, some s2 =>
        if ('=' : Char) = '=' then
          if ('=' : Char) = '=' ∧ ([] : List Char) = [] then some [s1 * 4 + s2 / 16] else none
        else none
      | _, _ => none from rfl]
    rw [sextetOf_sextetChar _ (by omega), sextetOf_sextetChar _ (by omega)]
    simp only [if_pos rfl, and_self, reduceIte]
    congr 2
    omega
  | case3 b1 b2 =>
    have h1 : b1 < 256 := hb b1 (by simp)
    have h2 : b2 < 256 := hb b2 (by simp)
    rw [btoaChunks]
    simp only [atobChunks, sextetOf_sextetChar _ (by omega : b1 / 4 < 64),
      sextetOf_sextetChar _ (by omega : b1 % 4 * 16 + b2 / 16 < 64),
      sextetOf_sextetChar _ (by omega : b2 % 16 * 4 < 64),
      if_neg (sextetChar_ne_eq _ (by omega : b2 % 16 * 4 < 64))]
    simp only [and_self, reduceIte, if_pos rfl]
    congr 2
    · omega
    · congr 1
      omega
  | case4 b1 b2 b3 rest ih =>
    have h1 : b1 < 256 := hb b1 (by simp)
    have h2 : b2 < 256 := hb b2 (by simp)
    have h3 : b3 < 256 := hb b3 (by simp)
    have hrest : ∀ b ∈ rest, b < 256 := fun b hbr => hb b (by simp [hbr])
    rw [btoaChunks]
    simp only [atobChunks, sextetOf_sextetChar _ (by omega : b1 / 4 < 64),
      sextetOf_sextetChar _ (by omega : b1 % 4 * 16 + b2 / 16 < 64),
      sextetOf_sextetChar _ (by omega : b2 % 16 * 4 + b3 / 64 < 64),
      sextetOf_sextetChar _ (by omega : b3 % 64 < 64),
      if_neg (sextetChar_ne_eq _ (by omega : b2 % 16 * 4 + b3 / 64 < 64)),
      if_neg (sextetChar_ne_eq _ (by omega : b3 % 64 < 64)),
      ih hrest]
    congr 1
    have e1 : b1 / 4 * 4 + (b1 % 4 * 16 + b2 / 16) / 16 = b1 := by omega
    have e2 : (b1 % 4 * 16 + b2 / 16) % 16 * 16 + (b2 % 16 * 4 + b3 / 64) / 4 = b2 := by omega
    have e3 : (b2 % 16 * 4 + b3 / 64) % 4 * 64 + b3 % 64 = b3 := by omega
    rw [e1, e2, e3]
    rfl

theorem dash5_false (c : Char) (t : List Char) (h : c ≠ '-') : dash5 (c :: t) = false := by
  simp only [dash5, List.take_succ_cons, beq_eq_false_iff_ne, ne_eq, List.cons.injEq, not_and]
  intro hc
  exact absurd hc h

theorem skipArmor_clean (l : List Char) (hl : ∀ c ∈ l, c ≠ '-') :
    ∀ r, skipArmor (l ++ r) = skipArmor r := by
  induction l with
  | nil => intro r; rfl
  | cons c t ih =>
    intro r
    rw [List.cons_append, skipArmor, dash5_false c _ (hl c (by simp))]
    simp only [Bool.false_eq_true, if_false]
    exact ih (fun x hx => hl x (by simp [hx])) r

theorem skipArmor_dashes (r : List Char) :
    skipArmor ('-' :: '-' :: '-' :: '-' :: '-' :: r) = r := by
  rw [skipArmor]
  simp [dash5]

theorem stripScanAux_nil (fuel : Nat) : stripScanAux fuel [] = [] := by
  cases fuel <;> rfl

theorem stripScanAux_clean (l : List Char) (hl : ∀ c ∈ l, c ≠ '-') :
    ∀ (r : List Char) (fuel : Nat),
      stripScanAux (l.length + fuel) (l ++ r) =
        l.filter (fun c => c != '\n') ++ stripScanAux fuel r := by
  induction l with
  | nil => intro r fuel; simp
  | cons c t ih =>
    intro r fuel
    have hlen : (c :: t).length + fuel = (t.length + fuel) + 1 := by simp; omega
    rw [hlen, List.cons_append, stripScanAux, dash5_false c _ (hl c (by simp))]
    simp only [Bool.false_eq_true, if_false]
    by_cases hc : c = '\n'
    · rw [if_pos hc, ih (fun x hx => hl x (by simp [hx])) r fuel]
      subst hc
      simp [List.filter_cons]
    · rw [if_neg hc, ih (fun x hx => hl x (by simp [hx])) r fuel]
      have : (c != '\n') = true := by simp [hc]
      simp [List.filter_cons, this]

theorem stripScanAux_newline (r : List Char) (fuel : Nat) :
    stripScanAux (fuel + 1) ('\n' :: r) = stripScanAux fuel r := by
  rw [stripScanAux, dash5_false _ _ (by decide)]
  simp

theorem skipArmor_cons (c : Char) (t : List Char) (h : c ≠ '-') :
    skipArmor (c :: t) = skipArmor t := by
  rw [skipArmor, dash5_false c t h]
  simp

theorem stripScanAux_dashstep (rest : List Char) (fuel : Nat) :
    stripScanAux (fuel + 1) ('-' :: '-' :: '-' :: '-' :: '-' :: rest) =
      stripScanAux fuel (skipArmor rest) := by
  rw [stripScanAux]
  have hd : dash5 ('-' :: '-' :: '-' :: '-' :: '-' :: rest) = true := by simp [dash5]
  rw [hd]
  simp

theorem stripScanAux_openArmor (ty : List Char) (hty : ∀ c ∈ ty, c ≠ '-')
    (r : List Char) (fuel : Nat) :
    stripScanAux (fuel + 1)
      ('-' :: '-' :: '-' :: '-' :: '-' :: 'B' :: 'E' :: 'G' :: 'I' :: 'N' :: ' ' ::
        (ty ++ ('-' :: '-' :: '-' :: '-' :: '-' :: r))) = stripScanAux fuel r := by
  rw [stripScanAux_dashstep,
    skipArmor_cons 'B' _ (by decide), skipArmor_cons 'E' _ (by decide),
    skipArmor_cons 'G' _ (by decide), skipArmor_cons 'I' _ (by decide),
    skipArmor_cons 'N' _ (by decide), skipArmor_cons ' ' _ (by decide),
    skipArmor_clean ty hty, skipArmor_dashes]

theorem stripScanAux_closeArmor (ty : List Char) (hty : ∀ c ∈ ty, c ≠ '-') (fuel : Nat) :
    stripScanAux (fuel + 1)
      ('-' :: '-' :: '-' :: '-' :: '-' :: 'E' :: 'N' :: 'D' :: ' ' ::
        (ty ++ ['-', '-', '-', '-', '-'])) = [] := by
  rw [stripScanAux_dashstep,
    skipArmor_cons 'E' _ (by decide), skipArmor_cons 'N' _ (by decide),
    skipArmor_cons 'D' _ (by decide), skipArmor_cons ' ' _ (by decide),
    skipArmor_clean ty hty, show (['-', '-', '-', '-', '-'] : List Char) =
      '-' :: '-' :: '-' :: '-' :: '-' :: [] from rfl, skipArmor_dashes]
  exact stripScanAux_nil fuel

theorem chunk64Aux_flatten : ∀ (fuel : Nat) (l : List Char), l.length ≤ fuel →
    (chunk64Aux fuel l).flatten = l := by
  intro fuel
  induction fuel with
  | zero =>
    intro l hl
    have h0 : l = [] := List.eq_nil_of_length_eq_zero (by omega)
    subst h0; rfl
  | succ k ih =>
    intro l hl
    match l with
    | [] => rfl
    | c :: rest =>
      rw [chunk64Aux, List.flatten_cons, ih _ ?_]
      · exact List.take_append_drop _ _
      · simp only [List.length_drop, List.length_cons, PEM_LINE_LENGTH]
        simp only [List.length_cons] at hl
        omega

theorem chunk64_flatten (l : List Char) : (chunk64 l).flatten = l :=
  chunk64Aux_flatten l.length l (Nat.le_refl _)

theorem chunk64Aux_mem : ∀ (fuel : Nat) (l : List Char) (L : List Char),
    L ∈ chunk64Aux fuel l → ∀ c ∈ L, c ∈ l := by
  intro fuel
  induction fuel with
  | zero => intro l L hL; simp [chunk64Aux] at hL
  | succ k ih =>
    intro l L hL c hc
    match l with
    | [] => simp [chunk64Aux] at hL
    | x :: rest =>
      rw [chunk64Aux] at hL
      rcases List.mem_cons.mp hL with h | h
      · exact List.take_subset _ _ (h ▸ hc)
      · exact List.drop_subset _ _ (ih _ L h c hc)

theorem chunk64_mem (l L : List Char) (hL : L ∈ chunk64 l) : ∀ c ∈ L, c ∈ l :=
  chunk64Aux_mem l.length l L hL

theorem joinLines_mem (ls : List (List Char)) :
    ∀ c ∈ joinLines ls, (∃ L ∈ ls, c ∈ L) ∨ c = '\n' := by
  induction ls with
  | nil => simp [joinLines]
  | cons l ls ih =>
    intro c hc
    match ls with
    | [] =>
      rw [show joinLines [l] = l from rfl] at hc
      exact Or.inl ⟨l, by simp, hc⟩
    | l2 :: ls2 =>
      rw [show joinLines (l :: l2 :: ls2) = l ++ '\n' :: joinLines (l2 :: ls2) from rfl] at hc
      rcases List.mem_append.mp hc with h | h
      · exact Or.inl ⟨l, by simp, h⟩
      · rcases List.mem_cons.mp h with h | h
        · exact Or.inr h
        · rcases ih c h with ⟨L, hL, hcL⟩ | h
          · exact Or.inl ⟨L, by simp [hL], hcL⟩
          · exact Or.inr h

theorem filter_joinLines (ls : List (List Char))
    (h : ∀ L ∈ ls, ∀ c ∈ L, c ≠ '\n') :
    (joinLines ls).filter (fun c => c != '\n') = ls.flatten := by
  induction ls with
  | nil => rfl
  | cons l ls ih =>
    match ls with
    | [] =>
      rw [show joinLines [l] = l from rfl]
      rw [List.filter_eq_self.mpr (fun c hc => by simp [h l (by simp) c hc])]
      simp
    | l2 :: ls2 =>
      rw [show joinLines (l :: l2 :: ls2) = l ++ '\n' :: joinLines (l2 :: ls2) from rfl,
        List.flatten_cons, List.filter_append, List.filter_cons]
      have h1 : (('\n' : Char) != '\n') = false := by decide
      rw [h1]
      rw [List.filter_eq_self.mpr (fun c hc => by simp [h l (by simp) c hc])]
      rw [ih (fun L hL => h L (by simp [hL]))]
      simp

theorem stripPEM_formatPEM (b ty : List Char)
    (hb : ∀ c ∈ b, c ≠ '-' ∧ c ≠ '\n') (hty : ∀ c ∈ ty, c ≠ '-') :
    stripPEM (formatPEM b ty) = b := by
  have hbody : ∀ c ∈ joinLines (chunk64 b), c ≠ '-' := by
    intro c hc
    rcases joinLines_mem _ c hc with ⟨L, hL, hcL⟩ | h
    · exact (hb c (chunk64_mem b L hL c hcL)).1
    · subst h; decide
  have hkey : ∀ fuel : Nat,
      stripScanAux ((((joinLines (chunk64 b)).length + ((fuel + 1) + 1)) + 1) + 1)
        (formatPEM b ty) = b := by
    intro fuel
    rw [formatPEM,
      show (("-----BEGIN ").data) = ['-', '-', '-', '-', '-', 'B', 'E', 'G', 'I', 'N', ' '] from rfl,
      show (("-----").data) = ['-', '-', '-', '-', '-'] from rfl,
      show (("-----END ").data) = ['-', '-', '-', '-', '-', 'E', 'N', 'D', ' '] from rfl]
    simp only [List.cons_append, List.nil_append, List.append_assoc]
    rw [stripScanAux_openArmor ty hty, stripScanAux_newline,
      stripScanAux_clean _ hbody, stripScanAux_newline, stripScanAux_closeArmor ty hty]
    rw [List.append_nil, filter_joinLines _ ?_, chunk64_flatten]
    intro L hL c hc
    exact (hb c (chunk64_mem b L hL c hc)).2
  have hlen : (formatPEM b ty).length =
      ((((joinLines (chunk64 b)).length + (((28 + 2 * ty.length) + 1) + 1)) + 1) + 1) := by
    rw [formatPEM]
    simp only [List.length_append, List.length_cons, List.length_nil]
    omega
  rw [stripPEM, hlen]
  exact hkey (28 + 2 * ty.length)

theorem atobChars_btoaChars (bs : List Nat) (hb : ∀ b ∈ bs, b < 256) :
    atobChars (btoaChars bs) = some bs :=
  atobChunks_btoaChunks bs hb

theorem btoaChars_inj (bs1 bs2 : List Nat) (h1 : ∀ b ∈ bs1, b < 256)
    (h2 : ∀ b ∈ bs2, b < 256) (h : btoaChars bs1 = btoaChars bs2) : bs1 = bs2 := by
  have e1 := atobChars_btoaChars bs1 h1
  have e2 := atobChars_btoaChars bs2 h2
  rw [h, e2] at e1
  exact (Option.some_injective _ e1).symm

theorem b64Alpha_clean : ∀ c ∈ b64Alpha, c ≠ '-' ∧ c ≠ '\n' := by decide

theorem btoaChars_clean (bs : List Nat) : ∀ c ∈ btoaChars bs, c ≠ '-' ∧ c ≠ '\n' := by
  intro c hc
  rcases btoaChunks_mem bs c hc with h | h
  · exact b64Alpha_clean c h
  · subst h; exact ⟨by decide, by decide⟩

theorem msgEnc_lt (s : List Char) : ∀ b ∈ msgEnc s, b < 256 := by
  intro b hb
  rw [msgEnc, List.mem_flatten] at hb
  rcases hb with ⟨l, hl, hbl⟩
  rcases List.mem_map.mp hl with ⟨c, _, hc⟩
  exact varint_lt c.toNat b (hc ▸ hbl)

theorem encBytes_lt (l : List Nat) (hl : ∀ b ∈ l, b < 256) :
    ∀ b ∈ encBytes l, b < 256 := by
  intro b hb
  rcases List.mem_append.mp hb with h | h
  · exact varint_lt _ b h
  · exact hl b h

theorem ecdhCt_lt (s : Nat) (iv pt : List Nat) (hiv : ∀ b ∈ iv, b < 256)
    (hpt : ∀ b ∈ pt, b < 256) :
    ∀ b ∈ aesGcmEncrypt (SymKey.ecdh s) iv pt, b < 256 := by
  intro b hb
  rw [aesGcmEncrypt] at hb
  rcases List.mem_append.mp hb with h | h
  · rcases List.mem_append.mp h with h | h
    · rw [encodeKey] at h
      rcases List.mem_cons.mp h with h | h
      · omega
      · exact varint_lt _ b h
    · exact encBytes_lt iv hiv b h
  · exact hpt b h

theorem ecRawPoint_lt (q : Nat) : ∀ b ∈ ecRawPoint q, b < 256 := by
  intro b hb
  rw [ecRawPoint] at hb
  rcases List.mem_cons.mp hb with h | h
  · omega
  · exact leBytes_lt _ _ b h

theorem combined_lt (e : Nat) (ivR : List Nat) (s : Nat) (m : List Char)
    (hiv : ∀ b ∈ ivR, b < 256) :
    ∀ b ∈ ecRawPoint e ++ ivR ++ aesGcmEncrypt (SymKey.ecdh s) ivR (msgEnc m), b < 256 := by
  intro b hb
  rcases List.mem_append.mp hb with h | h
  · rcases List.mem_append.mp h with h | h
    · exact ecRawPoint_lt e b h
    · exact hiv b h
  · exact ecdhCt_lt s ivR (msgEnc m) hiv (msgEnc_lt m) b h

theorem unlockPrivateKey_error_state (v : Vault) (w s i : List Nat)
    (p pem : List Char) (err : VaultError)
    (h : (unlockPrivateKey v w s i p pem).2 = Except.error err) :
    (unlockPrivateKey v w s i p pem).1 = v := by
  rw [unlockPrivateKey] at h ⊢
  cases h1 : aesGcmDecrypt (deriveKeyFromPassword p s) i w with
  | none => simp [h1]
  | some raw =>
    simp only [h1] at h ⊢
    cases h2 : importPkcs8 raw with
    | none => simp [h2]
    | some priv =>
      simp only [h2] at h ⊢
      cases h3 : importPublicKeyFromPEM pem with
      | error e => simp [h3]
      | ok q =>
        simp only [h3] at h
        simp at h

/-! ## Evaluation helpers for the hybrid cipher path -/

theorem stripUv_prefixed (x : List Char) : stripUv ((("uv:").data) ++ x) = x := by
  rw [stripUv, List.take_left' (show (("uv:").data).length = 3 from rfl), if_pos rfl,
    List.drop_left' (show (("uv:").data).length = 3 from rfl)]

theorem b64Alpha_no_colon : ∀ c ∈ b64Alpha, c ≠ ':' := by decide

theorem stripUv_btoaChars (bs : List Nat) : stripUv (btoaChars bs) = btoaChars bs := by
  rw [stripUv]
  split
  · next h =>
    exfalso
    have hc : (':' : Char) ∈ (btoaChars bs).take 3 := by
      rw [h]; decide
    have hmem := List.take_subset 3 (btoaChars bs) hc
    rcases btoaChunks_mem bs ':' hmem with h2 | h2
    · exact b64Alpha_no_colon ':' h2 rfl
    · exact absurd h2 (by decide)
  · rfl

theorem stripPEM_clean (l : List Char) (h : ∀ c ∈ l, c ≠ '-' ∧ c ≠ '\n') :
    stripPEM l = l := by
  rw [stripPEM]
  have h2 := stripScanAux_clean l (fun c hc => (h c hc).1) [] 0
  simp only [List.append_nil, Nat.add_zero] at h2
  rw [h2, stripScanAux_nil, List.append_nil]
  exact List.filter_eq_self.mpr (fun c hc => by simp [(h c hc).2])

theorem encryptData_eval (v : Vault) (kp : KeyPair) (e : Nat) (ivR : List Nat)
    (m : List Char) (hkp : v.keyPair = some kp) :
    encryptData v e ivR m = Except.ok ((("uv:").data) ++
      btoaChars (ecRawPoint e ++ ivR ++
        aesGcmEncrypt (SymKey.ecdh (e * kp.publicKey)) ivR (msgEnc m))) := by
  rw [encryptData, hkp]

theorem decryptData_combined (v : Vault) (kp : KeyPair) (hkp : v.keyPair = some kp)
    (e : Nat) (ivR ct : List Nat) (blob : List Char)
    (hblob : stripUv blob = btoaChars (ecRawPoint e ++ ivR ++ ct))
    (he : e < 256 ^ EC_POINT_BYTES) (hlen : ivR.length = IV_LENGTH)
    (hbytes : ∀ b ∈ ecRawPoint e ++ ivR ++ ct, b < 256) :
    decryptData v blob =
      (match aesGcmDecrypt (SymKey.ecdh (kp.privateKey * e)) ivR ct with
       | none => Except.error VaultError.decryptionFailed
       | some pt => Except.ok (msgDec pt)) := by
  rw [decryptData, hkp, hblob, atobChars_btoaChars _ hbytes]
  have htake : (ecRawPoint e ++ ivR ++ ct).take EPHEMERAL_KEY_LENGTH = ecRawPoint e := by
    rw [List.append_assoc, List.take_left' (length_ecRawPoint e)]
  have hdrop : (ecRawPoint e ++ ivR ++ ct).drop EPHEMERAL_KEY_LENGTH = ivR ++ ct := by
    rw [List.append_assoc, List.drop_left' (length_ecRawPoint e)]
  have hiv : ((ecRawPoint e ++ ivR ++ ct).drop EPHEMERAL_KEY_LENGTH).take IV_LENGTH = ivR := by
    rw [hdrop, List.take_left' hlen]
  have hct : (ecRawPoint e ++ ivR ++ ct).drop (EPHEMERAL_KEY_LENGTH + IV_LENGTH) = ct := by
    rw [List.drop_left']
    rw [List.length_append, length_ecRawPoint, hlen]
  simp only [htake, hiv, hct, importRawPoint_ecRawPoint e he]

/-- C1: if `unlockPrivateKey` fails with the unlock failure (AEAD tag
mismatch), every vault field is exactly what it was before the call; in
particular a Locked vault remains Locked, and the error is the value
returned to the caller. -/
theorem unlockPrivateKey_failure_preserves_state
    (v : Vault) (wrappedPayload salt iv : List Nat) (password publicKeyPem : List Char)
    (h : (unlockPrivateKey v wrappedPayload salt iv password publicKeyPem).2 =
      Except.error VaultError.unlockFailed) :
    (unlockPrivateKey v wrappedPayload salt iv password publicKeyPem).1 = v ∧
    isUnlocked (unlockPrivateKey v wrappedPayload salt iv password publicKeyPem).1 =
      isUnlocked v := by
  have h1 := unlockPrivateKey_error_state v wrappedPayload salt iv password publicKeyPem
    VaultError.unlockFailed h
  exact ⟨h1, by rw [h1]⟩

theorem unlockPrivateKey_failure_preserves_state_witness :
    (unlockPrivateKey vaultInit [] [] [] (("x").data) (("y").data)).2 =
      Except.error VaultError.unlockFailed ∧
    (unlockPrivateKey vaultInit [] [] [] (("x").data) (("y").data)).1 = vaultInit ∧
    isUnlocked (unlockPrivateKey vaultInit [] [] [] (("x").data) (("y").data)).1 =
      isUnlocked vaultInit := by
  have h0 : (unlockPrivateKey vaultInit [] [] [] (("x").data) (("y").data)).2 =
      Except.error VaultError.unlockFailed := rfl
  have h1 := unlockPrivateKey_failure_preserves_state vaultInit [] [] []
    (("x").data) (("y").data) h0
  exact ⟨h0, h1.1, h1.2⟩

/-- C2: unwrapping material wrapped under password `p1`, using a different
password `p2` with the same salt and iv, always fails with the unlock
failure (AEAD tag mismatch) and never yields a key: the vault attempting
the unlock is left exactly unchanged. -/
theorem wrap_unlock_wrong_password_fails
    (v v2 : Vault) (kp : KeyPair) (p1 p2 : List Char) (saltR ivR : List Nat)
    (pem : List Char) (ct : List Nat)
    (hkp : v.keyPair = some kp) (hne : p1 ≠ p2)
    (hct : (wrapPrivateKeyWithPassword v p1 saltR ivR).1.wrappedPrivateKey = some ct) :
    unlockPrivateKey v2 ct saltR ivR p2 pem = (v2, Except.error VaultError.unlockFailed) := by
  have hctv : ct = aesGcmEncrypt (deriveKeyFromPassword p1 saltR) ivR
      (pkcs8Bytes kp.privateKey) := by
    rw [wrapPrivateKeyWithPassword] at hct
    simp only [hkp] at hct
    exact (Option.some_injective _ hct).symm
  have hdec : aesGcmDecrypt (deriveKeyFromPassword p2 saltR) ivR ct = none := by
    rw [hctv]
    apply aesGcmDecrypt_other
    intro ⟨hk, _⟩
    rw [deriveKeyFromPassword, deriveKeyFromPassword] at hk
    cases hk
    exact hne rfl
  rw [unlockPrivateKey]
  simp only [hdec]

theorem wrap_unlock_wrong_password_fails_witness :
    (generateKeyPair vaultInit 5).keyPair = some ⟨5, 5⟩ ∧
    (("a").data) ≠ (("b").data) ∧
    (wrapPrivateKeyWithPassword (generateKeyPair vaultInit 5) (("a").data)
      [1] [2]).1.wrappedPrivateKey =
      some (aesGcmEncrypt (deriveKeyFromPassword (("a").data) [1]) [2] (pkcs8Bytes 5)) ∧
    unlockPrivateKey vaultInit
      (aesGcmEncrypt (deriveKeyFromPassword (("a").data) [1]) [2] (pkcs8Bytes 5))
      [1] [2] (("b").data) [] =
      (vaultInit, Except.error VaultError.unlockFailed) := by
  refine ⟨rfl, by decide, rfl, ?_⟩
  exact wrap_unlock_wrong_password_fails (generateKeyPair vaultInit 5) vaultInit ⟨5, 5⟩
    (("a").data) (("b").data) [1] [2] [] _ rfl (by decide) rfl

/-- C3: for every message (including the empty one) and every matching
P-256 key pair held by an unlocked vault, `decryptData` applied to
`encryptData` of the message returns the message: the hybrid
ECDH + AES-GCM round trip is the identity on plaintexts. -/
theorem encryptData_decryptData_roundtrip
    (v : Vault) (kp : KeyPair) (e : Nat) (ivR : List Nat) (message : List Char)
    (hkp : v.keyPair = some kp) (hmatch : kp.publicKey = kp.privateKey)
    (he : e < 256 ^ EC_POINT_BYTES) (hlen : ivR.length = IV_LENGTH)
    (hiv : ∀ b ∈ ivR, b < 256) :
    (encryptData v e ivR message).bind (fun blob => decryptData v blob) =
      Except.ok message := by
  rw [encryptData_eval v kp e ivR message hkp]
  show decryptData v _ = _
  rw [decryptData_combined v kp hkp e ivR
    (aesGcmEncrypt (SymKey.ecdh (e * kp.publicKey)) ivR (msgEnc message))
    _ (stripUv_prefixed _) he hlen
    (combined_lt e ivR (e * kp.publicKey) message hiv)]
  simp only [hmatch, Nat.mul_comm e kp.privateKey, aesGcmDecrypt_encrypt, msgDec_msgEnc]

theorem encryptData_decryptData_roundtrip_witness :
    (generateKeyPair vaultInit 5).keyPair = some ⟨5, 5⟩ ∧
    (encryptData (generateKeyPair vaultInit 5) 7 [0, 1, 2, 3, 4, 5, 6, 7, 8, 9, 10, 11]
        (("hello").data)).bind
      (fun blob => decryptData (generateKeyPair vaultInit 5) blob) =
      Except.ok (("hello").data) := by
  refine ⟨rfl, ?_⟩
  exact encryptData_decryptData_roundtrip (generateKeyPair vaultInit 5) ⟨5, 5⟩ 7
    [0, 1, 2, 3, 4, 5, 6, 7, 8, 9, 10, 11] (("hello").data) rfl rfl (by decide)
    (by decide) (by decide)

/-- C4: `lock()` moves the vault to Locked and clears the private key
handle and all wrapping metadata: afterwards `keyPair`, `salt`, `iv` and
`wrappedPrivateKey` are all null and `isUnlocked()` is false. -/
theorem lock_clears_state (v : Vault) :
    (lock v).keyPair = none ∧ (lock v).salt = none ∧ (lock v).iv = none ∧
    (lock v).wrappedPrivateKey = none ∧ isUnlocked (lock v) = false :=
  ⟨rfl, rfl, rfl, rfl, rfl⟩

/-- C5 counterexample: a blob with the `uv:` prefix absent is not rejected.
The blob below is exactly the output of `encryptData` with its `uv:` prefix
removed; `decryptData` accepts it and returns the plaintext instead of
failing with a format error. -/
theorem decryptData_missing_prefix_accepted :
    (btoaChars (ecRawPoint 7 ++ [0, 1, 2, 3, 4, 5, 6, 7, 8, 9, 10, 11] ++
        aesGcmEncrypt (SymKey.ecdh (7 * 5)) [0, 1, 2, 3, 4, 5, 6, 7, 8, 9, 10, 11]
          (msgEnc (("hi").data)))).take 3 ≠ (("uv:").data) ∧
    decryptData (generateKeyPair vaultInit 5)
      (btoaChars (ecRawPoint 7 ++ [0, 1, 2, 3, 4, 5, 6, 7, 8, 9, 10, 11] ++
        aesGcmEncrypt (SymKey.ecdh (7 * 5)) [0, 1, 2, 3, 4, 5, 6, 7, 8, 9, 10, 11]
          (msgEnc (("hi").data)))) = Except.ok (("hi").data) := by
  constructor
  · intro h
    have hc : (':' : Char) ∈ (btoaChars (ecRawPoint 7 ++ [0, 1, 2, 3, 4, 5, 6, 7, 8, 9, 10, 11] ++
        aesGcmEncrypt (SymKey.ecdh (7 * 5)) [0, 1, 2, 3, 4, 5, 6, 7, 8, 9, 10, 11]
          (msgEnc (("hi").data)))).take 3 := by
      rw [h]; decide
    have hmem := List.take_subset 3 _ hc
    rcases btoaChunks_mem _ ':' hmem with h2 | h2
    · exact b64Alpha_no_colon ':' h2 rfl
    · exact absurd h2 (by decide)
  · rw [decryptData_combined (generateKeyPair vaultInit 5) ⟨5, 5⟩ rfl 7
      [0, 1, 2, 3, 4, 5, 6, 7, 8, 9, 10, 11]
      (aesGcmEncrypt (SymKey.ecdh (7 * 5)) [0, 1, 2, 3, 4, 5, 6, 7, 8, 9, 10, 11]
        (msgEnc (("hi").data)))
      _ (stripUv_btoaChars _) (by decide) (by decide)
      (combined_lt 7 _ (7 * 5) (("hi").data) (by decide))]
    have h35 : (5 : Nat) * 7 = 7 * 5 := by decide
    simp only [h35, aesGcmDecrypt_encrypt, msgDec_msgEnc]

/-- C5 (amended): malformed base64 after optional prefix stripping is
rejected (as the platform `InvalidCharacterError`, the code defining no
`FormatError` class), and a blob too short to contain a 65-byte ephemeral
point is rejected at the ephemeral key import; no partial result is ever
produced.  The `uv:` prefix itself is not validated (see the
counterexample), and PEM armor is not required by the public key import
path: a bare base64 SPKI body imports successfully. -/
theorem decryptData_malformed_rejected (v : Vault) (kp : KeyPair) (blob : List Char)
    (hkp : v.keyPair = some kp) :
    (atobChars (stripUv blob) = none → decryptData v blob = Except.error VaultError.formatError) ∧
    (∀ combined, atobChars (stripUv blob) = some combined →
      importRawPoint (combined.take EPHEMERAL_KEY_LENGTH) = none →
      decryptData v blob = Except.error VaultError.importKeyError) ∧
    (∀ q, q < 256 ^ EC_POINT_BYTES →
      importPublicKeyFromPEM (btoaChars (spkiBytes q)) = Except.ok q) := by
  refine ⟨?_, ?_, ?_⟩
  · intro h
    rw [decryptData, hkp, h]
  · intro combined h himp
    rw [decryptData, hkp, h]
    simp only [himp]
  · intro q hq
    rw [importPublicKeyFromPEM]
    have hstrip : stripPEM (btoaChars (spkiBytes q)) = btoaChars (spkiBytes q) :=
      stripPEM_clean _ (btoaChars_clean _)
    simp only [hstrip, atobChars_btoaChars _ (spkiBytes_lt q), importSpki_spkiBytes q hq]

theorem decryptData_malformed_rejected_witness :
    (generateKeyPair vaultInit 3).keyPair = some ⟨3, 3⟩ ∧
    decryptData (generateKeyPair vaultInit 3) ['!'] = Except.error VaultError.formatError := by
  refine ⟨rfl, ?_⟩
  exact (decryptData_malformed_rejected (generateKeyPair vaultInit 3) ⟨3, 3⟩ ['!'] rfl).1 rfl

/-- C6: `changePassword` is unlock-then-rewrap; when the unlock step fails
the whole call returns with the unlock step's error, the wrap step never
runs, and the vault state (including the stored wrapped ciphertext, salt
and iv) is exactly what it was before the call — in particular a Locked
vault remains Locked. -/
theorem changePassword_unlock_failure
    (v : Vault) (oldPassword newPassword : List Char)
    (wrappedPayload salt iv : List Nat) (publicKeyPem : List Char)
    (saltR ivR : List Nat) (err : VaultError)
    (h : (unlockPrivateKey v wrappedPayload salt iv oldPassword publicKeyPem).2 =
      Except.error err) :
    changePassword v oldPassword newPassword wrappedPayload salt iv publicKeyPem saltR ivR =
      (v, Except.error err) := by
  have h1 := unlockPrivateKey_error_state v wrappedPayload salt iv oldPassword
    publicKeyPem err h
  have h2 : unlockPrivateKey v wrappedPayload salt iv oldPassword publicKeyPem =
      (v, Except.error err) := Prod.ext h1 h
  rw [changePassword, h2]

theorem changePassword_unlock_failure_witness :
    (unlockPrivateKey vaultInit [9] [] [] (("old").data) (("pk").data)).2 =
      Except.error VaultError.unlockFailed ∧
    changePassword vaultInit (("old").data) (("new").data) [9] [] [] (("pk").data) [1] [2] =
      (vaultInit, Except.error VaultError.unlockFailed) := by
  refine ⟨rfl, ?_⟩
  exact changePassword_unlock_failure vaultInit (("old").data) (("new").data) [9] [] []
    (("pk").data) [1] [2] VaultError.unlockFailed rfl

/-- C7 counterexample: on a freshly constructed vault (`keyPair` null),
`exportPublicKeyPEM` does not succeed: reading `this.keyPair.publicKey`
throws a TypeError, so the claim that it succeeds in every vault state is
false. -/
theorem exportPublicKeyPEM_fresh_fails :
    exportPublicKeyPEM vaultInit = Except.error VaultError.typeError := rfl

/-- C7 (amended): `exportPublicKeyPEM` does not require the Unlocked state
check (`_ensureUnlocked` is not called), but it does require a key pair to
be present: with `keyPair` null (freshly constructed or locked vault) it
fails with a TypeError from the null property access, and with a key pair
present it returns the SPKI public key PEM-armored with 64-character
lines. -/
theorem exportPublicKeyPEM_spec (v : Vault) :
    (v.keyPair = none → exportPublicKeyPEM v = Except.error VaultError.typeError) ∧
    (∀ kp, v.keyPair = some kp →
      exportPublicKeyPEM v =
        Except.ok (formatPEM (btoaChars (spkiBytes kp.publicKey)) (("PUBLIC KEY").data))) := by
  constructor
  · intro h
    rw [exportPublicKeyPEM, h]
  · intro kp h
    rw [exportPublicKeyPEM, h]

theorem exportPublicKeyPEM_spec_witness :
    (generateKeyPair vaultInit 7).keyPair = some ⟨7, 7⟩ ∧
    exportPublicKeyPEM (generateKeyPair vaultInit 7) =
      Except.ok (formatPEM (btoaChars (spkiBytes 7)) (("PUBLIC KEY").data)) := by
  refine ⟨rfl, ?_⟩
  exact (exportPublicKeyPEM_spec (generateKeyPair vaultInit 7)).2 ⟨7, 7⟩ rfl

/-- C8: `exportPrivateKeyPEM` requires the Unlocked state: on a locked
vault it fails with the vault-locked error, on an unlocked vault it
returns the PKCS8 private key as PEM; and after `lock()`, `isUnlocked()`
is false and a subsequent `exportPrivateKeyPEM` fails with the
vault-locked error. -/
theorem exportPrivateKeyPEM_spec (v : Vault) :
    (isUnlocked v = false →
      exportPrivateKeyPEM v =
        Except.error (ensureUnlockedErr (("Cannot export private key").data))) ∧
    (∀ kp, v.keyPair = some kp →
      exportPrivateKeyPEM v =
        Except.ok (formatPEM (btoaChars (pkcs8Bytes kp.privateKey)) (("PRIVATE KEY").data))) ∧
    isUnlocked (lock v) = false ∧
    exportPrivateKeyPEM (lock v) =
      Except.error (ensureUnlockedErr (("Cannot export private key").data)) := by
  refine ⟨?_, ?_, rfl, rfl⟩
  · intro h
    have hn : v.keyPair = none := by
      rw [isUnlocked] at h
      exact Option.not_isSome_iff_eq_none.mp (by simp [h])
    rw [exportPrivateKeyPEM, hn]
  · intro kp h
    rw [exportPrivateKeyPEM, h]

theorem exportPrivateKeyPEM_spec_witness :
    (generateKeyPair vaultInit 4).keyPair = some ⟨4, 4⟩ ∧
    isUnlocked vaultInit = false ∧
    exportPrivateKeyPEM vaultInit =
      Except.error (ensureUnlockedErr (("Cannot export private key").data)) ∧
    exportPrivateKeyPEM (generateKeyPair vaultInit 4) =
      Except.ok (formatPEM (btoaChars (pkcs8Bytes 4)) (("PRIVATE KEY").data)) ∧
    isUnlocked (lock (generateKeyPair vaultInit 4)) = false ∧
    exportPrivateKeyPEM (lock (generateKeyPair vaultInit 4)) =
      Except.error (ensureUnlockedErr (("Cannot export private key").data)) := by
  refine ⟨rfl, rfl, ?_, ?_, ?_, ?_⟩
  · exact (exportPrivateKeyPEM_spec vaultInit).1 rfl
  · exact (exportPrivateKeyPEM_spec (generateKeyPair vaultInit 4)).2.1 ⟨4, 4⟩ rfl
  · exact (exportPrivateKeyPEM_spec (generateKeyPair vaultInit 4)).2.2.1
  · exact (exportPrivateKeyPEM_spec (generateKeyPair vaultInit 4)).2.2.2

/-- C9: `encryptData` with fresh randomness produces fresh blobs: two
encryptions of the same message for the same recipient key differ whenever
the freshly generated ephemeral key or the freshly generated 12-byte iv
differ (each ephemeral scalar and iv enters the blob at a fixed offset, and
the base64 framing is injective). -/
theorem encryptData_fresh_randomness_distinct
    (v : Vault) (kp : KeyPair) (m : List Char) (e1 e2 : Nat) (iv1 iv2 : List Nat)
    (hkp : v.keyPair = some kp)
    (he1 : e1 < 256 ^ EC_POINT_BYTES) (he2 : e2 < 256 ^ EC_POINT_BYTES)
    (hl1 : iv1.length = IV_LENGTH) (hl2 : iv2.length = IV_LENGTH)
    (hb1 : ∀ b ∈ iv1, b < 256) (hb2 : ∀ b ∈ iv2, b < 256)
    (hne : e1 ≠ e2 ∨ iv1 ≠ iv2) :
    encryptData v e1 iv1 m ≠ encryptData v e2 iv2 m := by
  intro heq
  rw [encryptData_eval v kp e1 iv1 m hkp, encryptData_eval v kp e2 iv2 m hkp] at heq
  have h1 := Except.ok.inj heq
  have h2 := List.append_cancel_left h1
  have h3 := btoaChars_inj _ _ (combined_lt e1 iv1 (e1 * kp.publicKey) m hb1)
    (combined_lt e2 iv2 (e2 * kp.publicKey) m hb2) h2
  have hee : e1 = e2 := by
    have h4 := congrArg (List.take EPHEMERAL_KEY_LENGTH) h3
    rw [List.append_assoc, List.take_left' (length_ecRawPoint e1),
      List.append_assoc, List.take_left' (length_ecRawPoint e2)] at h4
    rw [ecRawPoint, ecRawPoint] at h4
    have h5 := (List.cons.injEq _ _ _ _).mp h4
    have h6 := congrArg leVal h5.2
    rw [leVal_leBytes, leVal_leBytes, Nat.mod_eq_of_lt he1, Nat.mod_eq_of_lt he2] at h6
    exact h6
  have hivv : iv1 = iv2 := by
    have h4 := congrArg (fun l => (List.drop EPHEMERAL_KEY_LENGTH l).take IV_LENGTH) h3
    simp only at h4
    rw [List.append_assoc, List.drop_left' (length_ecRawPoint e1), List.take_left' hl1,
      List.append_assoc, List.drop_left' (length_ecRawPoint e2), List.take_left' hl2] at h4
    exact h4
  rcases hne with h | h
  · exact h hee
  · exact h hivv

theorem encryptData_fresh_randomness_distinct_witness :
    (generateKeyPair vaultInit 5).keyPair = some ⟨5, 5⟩ ∧
    encryptData (generateKeyPair vaultInit 5) 1 [0, 0, 0, 0, 0, 0, 0, 0, 0, 0, 0, 0]
        (("msg").data) ≠
      encryptData (generateKeyPair vaultInit 5) 2 [0, 0, 0, 0, 0, 0, 0, 0, 0, 0, 0, 0]
        (("msg").data) := by
  refine ⟨rfl, ?_⟩
  exact encryptData_fresh_randomness_distinct (generateKeyPair vaultInit 5) ⟨5, 5⟩
    (("msg").data) 1 2 [0, 0, 0, 0, 0, 0, 0, 0, 0, 0, 0, 0] [0, 0, 0, 0, 0, 0, 0, 0, 0, 0, 0, 0]
    rfl (by decide) (by decide) (by decide) (by decide) (by decide) (by decide)
    (Or.inl (by decide))

/-- C10 (implicit): `unlockPrivateKey` never checks that the supplied
public-key PEM matches the unwrapped private key: for every wrapped payload
valid under the given password and every well-formed SPKI public key `q`
(even one from a different key pair), the call succeeds and leaves the
vault Unlocked holding the mismatched pair `(d, q)`; and with `q ≠ d` a
subsequent `encryptData`/`decryptData` round trip on that vault fails with
the decryption error instead of recovering the message. -/
theorem unlockPrivateKey_no_pair_check
    (v : Vault) (d q : Nat) (password : List Char) (salt iv : List Nat)
    (hq : q < 256 ^ EC_POINT_BYTES) :
    unlockPrivateKey v
        (aesGcmEncrypt (deriveKeyFromPassword password salt) iv (pkcs8Bytes d))
        salt iv password
        (formatPEM (btoaChars (spkiBytes q)) (("PUBLIC KEY").data)) =
      ({ v with keyPair := some ⟨d, q⟩ }, Except.ok ()) ∧
    (∀ e ivR m, q ≠ d → e ≠ 0 → e < 256 ^ EC_POINT_BYTES → ivR.length = IV_LENGTH →
      (∀ b ∈ ivR, b < 256) →
      (encryptData { v with keyPair := some ⟨d, q⟩ } e ivR m).bind
        (fun blob => decryptData { v with keyPair := some ⟨d, q⟩ } blob) =
        Except.error VaultError.decryptionFailed) := by
  constructor
  · have hpem : importPublicKeyFromPEM
        (formatPEM (btoaChars (spkiBytes q)) (("PUBLIC KEY").data)) = Except.ok q := by
      rw [importPublicKeyFromPEM, stripPEM_formatPEM _ _ (btoaChars_clean _) (by decide)]
      simp only [atobChars_btoaChars _ (spkiBytes_lt q), importSpki_spkiBytes q hq]
    rw [unlockPrivateKey]
    simp only [aesGcmDecrypt_encrypt, importPkcs8_pkcs8Bytes, hpem]
  · intro e ivR m hqd he0 he hlen hb
    rw [encryptData_eval _ ⟨d, q⟩ e ivR m rfl]
    have hred : ∀ (a : List Char) (f : List Char → Except VaultError (List Char)),
        (Except.ok a).bind f = f a := fun a f => rfl
    rw [hred]
    rw [decryptData_combined _ ⟨d, q⟩ rfl e ivR _ _ (stripUv_prefixed _) he hlen
      (combined_lt e ivR (e * q) m hb)]
    have hdec : aesGcmDecrypt (SymKey.ecdh (d * e)) ivR
        (aesGcmEncrypt (SymKey.ecdh (e * q)) ivR (msgEnc m)) = none := by
      apply aesGcmDecrypt_other
      intro ⟨hk, _⟩
      have hk2 := SymKey.ecdh.inj hk
      rw [Nat.mul_comm d e] at hk2
      exact hqd (Nat.eq_of_mul_eq_mul_left (by omega) hk2.symm).symm
    simp only [hdec]

theorem unlockPrivateKey_no_pair_check_witness :
    unlockPrivateKey vaultInit
        (aesGcmEncrypt (deriveKeyFromPassword (("pw").data) [1]) [2] (pkcs8Bytes 5))
        [1] [2] (("pw").data)
        (formatPEM (btoaChars (spkiBytes 3)) (("PUBLIC KEY").data)) =
      ({ vaultInit with keyPair := some ⟨5, 3⟩ }, Except.ok ()) ∧
    (encryptData { vaultInit with keyPair := some ⟨5, 3⟩ } 2
        [0, 0, 0, 0, 0, 0, 0, 0, 0, 0, 0, 0] (("hi").data)).bind
      (fun blob => decryptData { vaultInit with keyPair := some ⟨5, 3⟩ } blob) =
      Except.error VaultError.decryptionFailed := by
  have h := unlockPrivateKey_no_pair_check vaultInit 5 3 (("pw").data) [1] [2] (by decide)
  exact ⟨h.1, h.2 2 [0, 0, 0, 0, 0, 0, 0, 0, 0, 0, 0, 0] (("hi").data) (by decide)
    (by decide) (by decide) (by decide) (by decide)⟩
